import Mathlib

set_option maxHeartbeats 1000000

/- Shallow embedding of the Hack assembler (src/src/lib.rs).

   Strings are modelled at the character level via String.toList / String.mk;
   all assembler input is ASCII, so Rust byte indices coincide with character
   indices.  A Rust panic is modelled as Except.error in the parser accessors
   and encoders, and as Option.none at the driver level.  Recursive loops are
   written with an explicit fuel argument (always instantiated with enough
   fuel: the loops advance the cursor or shrink the line list at every step),
   so that every definition reduces by kernel computation. -/

instance {ε α : Type} [DecidableEq ε] [DecidableEq α] : DecidableEq (Except ε α)
  | .error e1, .error e2 =>
    match decEq e1 e2 with
    | isTrue h => isTrue (by rw [h])
    | isFalse h => isFalse (fun hh => h (by cases hh; rfl))
  | .error _, .ok _ => isFalse (fun hh => Except.noConfusion hh)
  | .ok _, .error _ => isFalse (fun hh => Except.noConfusion hh)
  | .ok a, .ok b =>
    match decEq a b with
    | isTrue h => isTrue (by rw [h])
    | isFalse h => isFalse (fun hh => h (by cases hh; rfl))

/-- Instruction kinds of the Hack assembler (enum Instruction in lib.rs). -/
inductive Instruction where
  | A
  | C
  | L
deriving DecidableEq

/-- Whether the character list starts with the two-slash comment marker. -/
def isMarkerAt (cs : List Char) : Bool :=
  match cs with
  | c :: r :: _ => c = '/' && r = '/'
  | _ => false

/-- Index of the first occurrence of the two-slash comment marker, as in
Rust line.find applied to the marker string. -/
def findMarker : List Char → Option Nat
  | [] => none
  | c :: rest =>
    if isMarkerAt (c :: rest) then some 0
    else (findMarker rest).map (· + 1)

/-- Whether the two-slash comment marker occurs in the character list. -/
def hasMarker (cs : List Char) : Bool := (findMarker cs).isSome

/-- Drop the suffix starting at the first comment marker (line slicing
line[..index] in Parser::create). -/
def cutComment (cs : List Char) : List Char :=
  match findMarker cs with
  | some i => cs.take i
  | none => cs

/-- Rust str::trim restricted to ASCII whitespace: drop whitespace from both
ends. -/
def trimChars (cs : List Char) : List Char :=
  ((cs.dropWhile Char.isWhitespace).reverse.dropWhile Char.isWhitespace).reverse

/-- Split a character list at every occurrence of the separator. -/
def splitChar (sep : Char) : List Char → List (List Char)
  | [] => [[]]
  | c :: cs =>
    match splitChar sep cs with
    | [] => [[]]
    | p :: ps => if c = sep then [] :: p :: ps else (c :: p) :: ps

/-- Strip one trailing carriage return, as Rust str::lines does per line. -/
def dropFinalCR (cs : List Char) : List Char :=
  match cs.getLast? with
  | some c => if c = '\r' then cs.dropLast else cs
  | none => cs

/-- Rust str::lines: split on newline, drop the final empty piece produced by
a trailing newline, strip a trailing carriage return from each line. -/
def rustLines (s : String) : List String :=
  let ps := splitChar '\n' s.toList
  let ps := if ps.getLast? = some [] then ps.dropLast else ps
  ps.map (fun p => String.mk (dropFinalCR p))

/-- Parser::create: per line, cut the comment suffix, trim whitespace, and
keep only non-empty lines, in input order. -/
def Parser.create (contents : String) : List String :=
  (((rustLines contents).map (fun l => String.mk (cutComment l.toList))).map
      (fun l => String.mk (trimChars l.toList))).filter (fun l => !l.isEmpty)

/-- Rust str::starts_with for a single character. -/
def startsWithChar (l : String) (c : Char) : Bool :=
  match l.toList with
  | [] => false
  | x :: _ => x = c

/-- Rust str::ends_with for a single character. -/
def endsWithChar (l : String) (c : Char) : Bool :=
  match l.toList.getLast? with
  | some x => x = c
  | none => false

/-- The line classification used by Parser::instruction_type: leading at-sign
is an A-instruction, parenthesised line is an L-instruction, anything else is
a C-instruction. -/
def classifyLine (l : String) : Instruction :=
  if startsWithChar l '@' then .A
  else if startsWithChar l '(' && endsWithChar l ')' then .L
  else .C

/-- Parser::instruction_type: classify the current line, or none when the
cursor is past the end of the line sequence. -/
def Parser.instructionType (lines : List String) (cur : Nat) : Option Instruction :=
  if h : cur < lines.length then some (classifyLine (lines.get ⟨cur, h⟩)) else none

/-- The eager predefined-symbol substitution in Parser::symbol: the fixed
names are replaced by their decimal address strings, anything else is kept. -/
def substPredefined (s : String) : String :=
  match s with
  | "R0" => "0"
  | "R1" => "1"
  | "R2" => "2"
  | "R3" => "3"
  | "R4" => "4"
  | "R5" => "5"
  | "R6" => "6"
  | "R7" => "7"
  | "R8" => "8"
  | "R9" => "9"
  | "R10" => "10"
  | "R11" => "11"
  | "R12" => "12"
  | "R13" => "13"
  | "R14" => "14"
  | "R15" => "15"
  | "SCREEN" => "16384"
  | "KBD" => "24576"
  | "SP" => "0"
  | "LCL" => "1"
  | "ARG" => "2"
  | "THIS" => "3"
  | "THAT" => "4"
  | _ => s

/-- Whether a character is an opening or closing parenthesis (the match set
of the trim_matches call in Parser::symbol). -/
def isParen (c : Char) : Bool := c = '(' || c = ')'

/-- Rust str::trim_matches for the parenthesis character set: drop leading and
trailing parentheses. -/
def trimParens (l : String) : String :=
  String.mk (((l.toList.dropWhile isParen).reverse.dropWhile isParen).reverse)

/-- Index of the first occurrence of a character (Rust str::find). -/
def findIdxC (c : Char) : List Char → Option Nat
  | [] => none
  | x :: xs => if x = c then some 0 else (findIdxC c xs).map (· + 1)

/-- Parser::symbol.  The source indexes self.lines with the cursor before
inspecting the instruction kind, so an out-of-range cursor is a panic,
modelled as Except.error. -/
def Parser.symbol (lines : List String) (cur : Nat) : Except String (Option String) :=
  if h : cur < lines.length then
    let line := lines.get ⟨cur, h⟩
    match Parser.instructionType lines cur with
    | some .A => .ok (some (substPredefined (String.mk (line.toList.drop 1))))
    | some .L => .ok (some (trimParens line))
    | _ => .ok none
  else .error "index out of bounds"

/-- Parser::dest: for a C-instruction, the slice before the equals sign when
one is present.  Indexes the line list first, like the source. -/
def Parser.dest (lines : List String) (cur : Nat) : Except String (Option String) :=
  if h : cur < lines.length then
    let line := lines.get ⟨cur, h⟩
    match Parser.instructionType lines cur with
    | some .C =>
      match findIdxC '=' line.toList with
      | some pos => .ok (some (String.mk (line.toList.take pos)))
      | none => .ok none
    | _ => .ok none
  else .error "index out of bounds"

/-- Parser::comp: for a C-instruction, the slice between the equals sign
(exclusive, or line start) and the semicolon (exclusive, or line end).  A
semicolon occurring before the equals sign makes the Rust slice panic, also
modelled as Except.error. -/
def Parser.comp (lines : List String) (cur : Nat) : Except String (Option String) :=
  if h : cur < lines.length then
    let line := lines.get ⟨cur, h⟩
    match Parser.instructionType lines cur with
    | some .C =>
      let cs := line.toList
      let start := match findIdxC '=' cs with
        | some pos => pos + 1
        | none => 0
      match findIdxC ';' cs with
      | some e =>
        if start ≤ e then .ok (some (String.mk ((cs.take e).drop start)))
        else .error "slice index out of order"
      | none => .ok (some (String.mk (cs.drop start)))
    | _ => .ok none
  else .error "index out of bounds"

/-- Parser::jump: for a C-instruction, the slice after the semicolon when one
is present. -/
def Parser.jump (lines : List String) (cur : Nat) : Except String (Option String) :=
  if h : cur < lines.length then
    let line := lines.get ⟨cur, h⟩
    match Parser.instructionType lines cur with
    | some .C =>
      match findIdxC ';' line.toList with
      | some pos => .ok (some (String.mk (line.toList.drop (pos + 1))))
      | none => .ok none
    | _ => .ok none
  else .error "index out of bounds"

/-- Code::dest: three destination bits; unknown mnemonics panic. -/
def Code.dest : Option String → Except String String
  | none => .ok "000"
  | some "M" => .ok "001"
  | some "D" => .ok "010"
  | some "DM" => .ok "011"
  | some "A" => .ok "100"
  | some "AM" => .ok "101"
  | some "AD" => .ok "110"
  | some "ADM" => .ok "111"
  | some d => .error ("Invalid dest: " ++ d)

/-- Code::jump: three jump bits; unknown mnemonics panic. -/
def Code.jump : Option String → Except String String
  | none => .ok "000"
  | some "JGT" => .ok "001"
  | some "JEQ" => .ok "010"
  | some "JGE" => .ok "011"
  | some "JLT" => .ok "100"
  | some "JNE" => .ok "101"
  | some "JLE" => .ok "110"
  | some "JMP" => .ok "111"
  | some cond => .error ("Invalid jump condition: " ++ cond)

/-- Code::comp: seven computation bits; a missing comp field and unknown
mnemonics both panic. -/
def Code.comp : Option String → Except String String
  | none => .error "No comp provided!"
  | some "0" => .ok "0101010"
  | some "1" => .ok "0111111"
  | some "-1" => .ok "0111010"
  | some "D" => .ok "0001100"
  | some "A" => .ok "0110000"
  | some "!D" => .ok "0001101"
  | some "!A" => .ok "0110011"
  | some "-D" => .ok "0001111"
  | some "-A" => .ok "0110011"
  | some "D+1" => .ok "0011111"
  | some "A+1" => .ok "0110111"
  | some "D-1" => .ok "0001110"
  | some "A-1" => .ok "0110010"
  | some "D+A" => .ok "0000010"
  | some "D-A" => .ok "0010011"
  | some "A-D" => .ok "0000111"
  | some "D&A" => .ok "0000000"
  | some "D|A" => .ok "0010101"
  | some "M" => .ok "1110000"
  | some "!M" => .ok "1110001"
  | some "-M" => .ok "1110011"
  | some "M+1" => .ok "1110111"
  | some "M-1" => .ok "1110010"
  | some "D+M" => .ok "1000010"
  | some "D-M" => .ok "1010011"
  | some "M-D" => .ok "1000111"
  | some "D&M" => .ok "1000000"
  | some "D|M" => .ok "1010101"
  | some c => .error ("Invalid comp: " ++ c)

/-- The sanctioned destination mnemonics (keys of Code::dest). -/
def destMnemonics : List String := ["M", "D", "DM", "A", "AM", "AD", "ADM"]

/-- The sanctioned jump mnemonics (keys of Code::jump). -/
def jumpMnemonics : List String := ["JGT", "JEQ", "JGE", "JLT", "JNE", "JLE", "JMP"]

/-- The sanctioned computation mnemonics (keys of Code::comp). -/
def compMnemonics : List String :=
  ["0", "1", "-1", "D", "A", "!D", "!A", "-D", "-A", "D+1", "A+1", "D-1", "A-1",
   "D+A", "D-A", "A-D", "D&A", "D|A", "M", "!M", "-M", "M+1", "M-1", "D+M",
   "D-M", "M-D", "D&M", "D|M"]

/-- The symbol table, modelled as an association list with the lookup
semantics of the Rust HashMap. -/
abbrev SymTable := List (String × Int)

/-- SymbolTable::new: the table starts empty; it has no predefined entries. -/
def SymbolTable.new : SymTable := []

/-- SymbolTable::contains (HashMap::contains_key). -/
def containsSym : SymTable → String → Bool
  | [], _ => false
  | (k, _) :: rest, s => k = s || containsSym rest s

/-- SymbolTable::add_entry (HashMap::insert): overwrite the value when the
key is present, otherwise add the binding. -/
def addEntry : SymTable → String → Int → SymTable
  | [], s, a => [(s, a)]
  | (k, v) :: rest, s, a =>
    if k = s then (k, a) :: rest else (k, v) :: addEntry rest s a

/-- SymbolTable::get_address (HashMap::get). -/
def getAddress : SymTable → String → Option Int
  | [], _ => none
  | (k, v) :: rest, s => if k = s then some v else getAddress rest s

/-- Binary digits of a value that fits in 32 bits, most significant first
(the digit stream of the Rust binary formatter; 32 steps of halving suffice
for any u32 value). -/
def binDigitsCore : Nat → Nat → List Char
  | 0, _ => []
  | fuel + 1, n =>
    if n = 0 then []
    else binDigitsCore fuel (n / 2) ++ [if n % 2 = 1 then '1' else '0']

/-- Binary digit list of a 32-bit value, with the single digit 0 for zero. -/
def binDigits (n : Nat) : List Char :=
  if n = 0 then ['0'] else binDigitsCore 32 n

/-- Rust format with the 016b specifier on an i32: the two's-complement bits
of the value, zero-padded on the left to at least 16 characters (wider values
keep all their digits). -/
def toBin16 (num : Int) : String :=
  let ds := binDigits ((num % (4294967296 : Int)).toNat)
  String.mk (List.replicate (16 - ds.length) '0' ++ ds)

/-- Rust str::parse for i32: optional sign, one or more ASCII digits, value
within the i32 range; anything else is a parse error. -/
def parseI32 (s : String) : Option Int :=
  let cs := s.toList
  let signDigits : Bool × List Char :=
    match cs with
    | '+' :: rest => (false, rest)
    | '-' :: rest => (true, rest)
    | _ => (false, cs)
  let neg := signDigits.1
  let ds := signDigits.2
  if ds = [] then none
  else if ds.all (fun c => c.isDigit) then
    let n : Nat := ds.foldl (fun a c => a * 10 + (c.toNat - 48)) 0
    let v : Int := if neg then -(n : Int) else (n : Int)
    if -2147483648 ≤ v ∧ v ≤ 2147483647 then some v else none
  else none

/-- HackAssembler::add_bytecode: refuse words that are not exactly 16
characters, otherwise append the word and a newline to the buffer. -/
def addBytecode (acc : String) (w : String) : Except String String :=
  if w.length ≠ 16 then .error "Wrong size, should be 16 chars!"
  else .ok (acc ++ w ++ "\n")

/-- The call sites of add_bytecode in run discard its Result, so a refused
word leaves the buffer unchanged and the run continues. -/
def appendWord (acc : String) (w : String) : String :=
  match addBytecode acc w with
  | .ok b => b
  | .error _ => acc

/-- Parser::has_more_lines: strictly more lines than cursor plus one. -/
def hasMoreLines (lines : List String) (cur : Nat) : Bool :=
  decide (lines.length > cur + 1)

/-- The first pass of run: label lines are entered into the symbol table at
the current cursor value and removed in place without advancing the cursor;
other lines advance the cursor; the loop ends via has_more_lines.  The fuel
argument only drives the recursion; pass1 supplies enough of it. -/
def pass1Fuel : Nat → List String → Nat → SymTable → Option (List String × SymTable)
  | 0, _, _, _ => none
  | fuel + 1, lines, cur, t =>
    match Parser.instructionType lines cur with
    | some .L =>
      match Parser.symbol lines cur with
      | .error _ => none
      | .ok none => none
      | .ok (some s) =>
        let t2 := addEntry t s (Int.ofNat cur)
        if hasMoreLines lines cur then pass1Fuel fuel (lines.eraseIdx cur) cur t2
        else some (lines.eraseIdx cur, t2)
    | _ =>
      if hasMoreLines lines cur then pass1Fuel fuel lines (cur + 1) t
      else some (lines, t)

/-- Pass 1 on a line sequence, starting from a cursor and table. -/
def pass1 (lines : List String) (cur : Nat) (t : SymTable) :
    Option (List String × SymTable) :=
  pass1Fuel (lines.length + 1) lines cur t

/-- The second pass of run.  A-instructions whose resolved symbol parses as
an i32 are encoded in binary and appended (with the add_bytecode Result
discarded); symbols that fail to parse only print a message and emit
nothing — the symbol table is never consulted.  C-instructions are encoded
via Code.  The table built by pass 1 does not appear here, exactly as in the
source. -/
def pass2Fuel : Nat → List String → Nat → String → Option String
  | 0, _, _, _ => none
  | fuel + 1, lines, cur, acc =>
    let step : Option String :=
      match Parser.instructionType lines cur with
      | some .A =>
        match Parser.symbol lines cur with
        | .error _ => none
        | .ok none => none
        | .ok (some s) =>
          match parseI32 s with
          | some num => some (appendWord acc (toBin16 num))
          | none => some acc
      | some .C =>
        match Parser.comp lines cur with
        | .error _ => none
        | .ok copt =>
          match Code.comp copt with
          | .error _ => none
          | .ok cb =>
            match Parser.dest lines cur with
            | .error _ => none
            | .ok dopt =>
              match Code.dest dopt with
              | .error _ => none
              | .ok db =>
                match Parser.jump lines cur with
                | .error _ => none
                | .ok jopt =>
                  match Code.jump jopt with
                  | .error _ => none
                  | .ok jb => some (appendWord acc ("111" ++ cb ++ db ++ jb))
      | _ => some acc
    match step with
    | none => none
    | some acc2 =>
      if hasMoreLines lines cur then pass2Fuel fuel lines (cur + 1) acc2
      else some acc2

/-- Pass 2 on a line sequence, starting from a cursor and output buffer. -/
def pass2 (lines : List String) (cur : Nat) (acc : String) : Option String :=
  pass2Fuel (lines.length + 1) lines cur acc

/-- run: normalize the source, run pass 1 from cursor 0 on an empty symbol
table, reset the cursor, run pass 2 on the label-stripped lines.  The table
produced by pass 1 is dropped, mirroring the source, where pass 2 never
reads it.  The result is the final output buffer, or none on a panic. -/
def runAssembler (contents : String) : Option String :=
  let lines := Parser.create contents
  match pass1 lines 0 SymbolTable.new with
  | none => none
  | some (lines2, _symbols) => pass2 lines2 0 ""

/-- A line that pass 1 treats as a label definition: starts with an opening
and ends with a closing parenthesis (and hence does not start with the
at-sign). -/
def isLabelLine (l : String) : Bool :=
  startsWithChar l '(' && endsWithChar l ')'

/-- The label-address assignment of pass 1, written as a single linear scan:
each label line is entered at the number of non-label lines before it, which
is the index of the next real instruction in the label-stripped sequence. -/
def labelFold : List String → Nat → SymTable → SymTable
  | [], _, t => t
  | l :: ls, k, t =>
    if isLabelLine l then labelFold ls k (addEntry t (trimParens l) (Int.ofNat k))
    else labelFold ls (k + 1) t

/- Helper lemmas about the symbol-table operations. -/

theorem getAddr_add_self (t : SymTable) (s : String) (a : Int) :
    getAddress (addEntry t s a) s = some a := by
  induction t with
  | nil => simp [addEntry, getAddress]
  | cons kv rest ih =>
    obtain ⟨k, v⟩ := kv
    by_cases h : k = s <;> simp [addEntry, getAddress, h, ih]

theorem getAddr_add_ne (t : SymTable) (s s2 : String) (a : Int) (h : s2 ≠ s) :
    getAddress (addEntry t s2 a) s = getAddress t s := by
  induction t with
  | nil =>
    simp [addEntry, getAddress]
    exact h
  | cons kv rest ih =>
    obtain ⟨k, v⟩ := kv
    by_cases h2 : k = s2
    · subst h2
      simp [addEntry, getAddress, h]
    · rw [show addEntry ((k, v) :: rest) s2 a = (k, v) :: addEntry rest s2 a from by
        simp [addEntry, h2]]
      by_cases h3 : k = s <;> simp [getAddress, h3, ih]

theorem contains_eq_isSome (t : SymTable) (s : String) :
    containsSym t s = (getAddress t s).isSome := by
  induction t with
  | nil => simp [containsSym, getAddress]
  | cons kv rest ih =>
    obtain ⟨k, v⟩ := kv
    by_cases h : k = s <;> simp [containsSym, getAddress, h, ih]

/- Helper lemmas: the encoders reject every string outside their tables. -/

theorem Code.dest_invalid (s : String) (h : s ∉ destMnemonics) :
    Code.dest (some s) = .error ("Invalid dest: " ++ s) := by
  unfold Code.dest
  split <;> simp_all [destMnemonics]

theorem Code.jump_invalid (s : String) (h : s ∉ jumpMnemonics) :
    Code.jump (some s) = .error ("Invalid jump condition: " ++ s) := by
  unfold Code.jump
  split <;> simp_all [jumpMnemonics]

theorem Code.comp_invalid (s : String) (h : s ∉ compMnemonics) :
    Code.comp (some s) = .error ("Invalid comp: " ++ s) := by
  unfold Code.comp
  split <;> simp_all [compMnemonics]

/-- Claim C1 (code evidence): pass 2 never resolves a non-numeric symbol.  A
lone variable reference assembles to empty output — no address 16 is
assigned and no word is emitted — and a variable reference followed by a
C-instruction yields only the C-word. -/
theorem hack_C1_code_behavior :
    runAssembler "@i" = some "" ∧
    runAssembler "@i\nM=0" = some "1110101010001000\n" := by decide

/-- Claim C2 (counterexample): the freshly constructed symbol table contains
none of the predefined associations the claim requires. -/
theorem hack_C2_counterexample :
    containsSym SymbolTable.new "R0" = false ∧
    getAddress SymbolTable.new "SCREEN" = none ∧
    getAddress SymbolTable.new "SP" = none := by decide

/-- Claim C2 (amended): the symbol table is constructed empty — predefined
names are resolved by the classifier, not the table — and it supports
membership test, insert-or-overwrite, and lookup with map semantics. -/
theorem hack_C2_table_ops :
    (∀ s, containsSym SymbolTable.new s = false) ∧
    (∀ t s a, getAddress (addEntry t s a) s = some a) ∧
    (∀ t s s2 a, s2 ≠ s → getAddress (addEntry t s2 a) s = getAddress t s) ∧
    (∀ t s, containsSym t s = (getAddress t s).isSome) :=
  ⟨fun _ => rfl, getAddr_add_self, getAddr_add_ne, contains_eq_isSome⟩

/-- Witness for the amended C2 at concrete inputs. -/
theorem hack_C2_witness :
    getAddress (addEntry SymbolTable.new "x" 5) "y" = getAddress SymbolTable.new "y" :=
  hack_C2_table_ops.2.2.1 SymbolTable.new "y" "x" 5 (by decide)

/-- Claim C3 (counterexample): the six-line example program does not produce
the claimed output — the claimed second word 1110110010010000 is not what
the code emits for the line D=A. -/
theorem hack_C3_counterexample :
    runAssembler "@2\nD=A\n@3\nD=D+A\n@0\nM=D" ≠
      some "0000000000000010\n1110110010010000\n0000000000000011\n1110000010010000\n0000000000000000\n1110001100001000\n" := by
  decide

/-- Claim C3 (amended): the example assembles to the six claimed words with
the second corrected to 1110110000010000. -/
theorem hack_C3_amended :
    runAssembler "@2\nD=A\n@3\nD=D+A\n@0\nM=D" =
      some "0000000000000010\n1110110000010000\n0000000000000011\n1110000010010000\n0000000000000000\n1110001100001000\n" := by
  decide

/-- Claim C4 (counterexample): the comp encoder is not injective on its
sanctioned domain — the distinct mnemonics for not-A and minus-A encode to
the same seven bits. -/
theorem hack_C4_counterexample :
    Code.comp (some "!A") = Code.comp (some "-A") ∧ "!A" ≠ "-A" := by decide

/-- Claim C4 (amended): dest and jump are injective on their sanctioned
domains; comp is injective except that the not-A and minus-A mnemonics
collide on 0110011; every string outside a table is a fatal error. -/
theorem hack_C4_injective :
    (∀ d1 ∈ destMnemonics, ∀ d2 ∈ destMnemonics,
        Code.dest (some d1) = Code.dest (some d2) → d1 = d2) ∧
    (∀ j1 ∈ jumpMnemonics, ∀ j2 ∈ jumpMnemonics,
        Code.jump (some j1) = Code.jump (some j2) → j1 = j2) ∧
    (∀ c1 ∈ compMnemonics, ∀ c2 ∈ compMnemonics,
        Code.comp (some c1) = Code.comp (some c2) →
          c1 = c2 ∨ (c1 = "!A" ∧ c2 = "-A") ∨ (c1 = "-A" ∧ c2 = "!A")) ∧
    (∀ s, s ∉ destMnemonics → Code.dest (some s) = .error ("Invalid dest: " ++ s)) ∧
    (∀ s, s ∉ jumpMnemonics → Code.jump (some s) = .error ("Invalid jump condition: " ++ s)) ∧
    (∀ s, s ∉ compMnemonics → Code.comp (some s) = .error ("Invalid comp: " ++ s)) :=
  ⟨by decide, by decide, by decide,
   Code.dest_invalid, Code.jump_invalid, Code.comp_invalid⟩

/-- Witness for the amended C4 at a concrete out-of-table string. -/
theorem hack_C4_witness :
    Code.jump (some "ELMO") = .error ("Invalid jump condition: " ++ "ELMO") :=
  hack_C4_injective.2.2.2.2.1 "ELMO" (by decide)

/-- Claim C6: the full dest, jump and comp tables, absence handling, and
rejection of every string outside the tables. -/
theorem hack_C6_tables :
    (Code.dest none = .ok "000" ∧ Code.dest (some "M") = .ok "001" ∧
     Code.dest (some "D") = .ok "010" ∧ Code.dest (some "DM") = .ok "011" ∧
     Code.dest (some "A") = .ok "100" ∧ Code.dest (some "AM") = .ok "101" ∧
     Code.dest (some "AD") = .ok "110" ∧ Code.dest (some "ADM") = .ok "111" ∧
     Code.jump none = .ok "000" ∧ Code.jump (some "JGT") = .ok "001" ∧
     Code.jump (some "JEQ") = .ok "010" ∧ Code.jump (some "JGE") = .ok "011" ∧
     Code.jump (some "JLT") = .ok "100" ∧ Code.jump (some "JNE") = .ok "101" ∧
     Code.jump (some "JLE") = .ok "110" ∧ Code.jump (some "JMP") = .ok "111" ∧
     Code.comp none = .error "No comp provided!" ∧
     Code.comp (some "0") = .ok "0101010" ∧ Code.comp (some "1") = .ok "0111111" ∧
     Code.comp (some "-1") = .ok "0111010" ∧ Code.comp (some "D") = .ok "0001100" ∧
     Code.comp (some "A") = .ok "0110000" ∧ Code.comp (some "!D") = .ok "0001101" ∧
     Code.comp (some "!A") = .ok "0110011" ∧ Code.comp (some "-D") = .ok "0001111" ∧
     Code.comp (some "-A") = .ok "0110011" ∧ Code.comp (some "D+1") = .ok "0011111" ∧
     Code.comp (some "A+1") = .ok "0110111" ∧ Code.comp (some "D-1") = .ok "0001110" ∧
     Code.comp (some "A-1") = .ok "0110010" ∧ Code.comp (some "D+A") = .ok "0000010" ∧
     Code.comp (some "D-A") = .ok "0010011" ∧ Code.comp (some "A-D") = .ok "0000111" ∧
     Code.comp (some "D&A") = .ok "0000000" ∧ Code.comp (some "D|A") = .ok "0010101" ∧
     Code.comp (some "M") = .ok "1110000" ∧ Code.comp (some "!M") = .ok "1110001" ∧
     Code.comp (some "-M") = .ok "1110011" ∧ Code.comp (some "M+1") = .ok "1110111" ∧
     Code.comp (some "M-1") = .ok "1110010" ∧ Code.comp (some "D+M") = .ok "1000010" ∧
     Code.comp (some "D-M") = .ok "1010011" ∧ Code.comp (some "M-D") = .ok "1000111" ∧
     Code.comp (some "D&M") = .ok "1000000" ∧ Code.comp (some "D|M") = .ok "1010101") ∧
    (∀ s, s ∉ destMnemonics → Code.dest (some s) = .error ("Invalid dest: " ++ s)) ∧
    (∀ s, s ∉ jumpMnemonics → Code.jump (some s) = .error ("Invalid jump condition: " ++ s)) ∧
    (∀ s, s ∉ compMnemonics → Code.comp (some s) = .error ("Invalid comp: " ++ s)) :=
  ⟨by repeat first | apply And.intro | decide,
   Code.dest_invalid, Code.jump_invalid, Code.comp_invalid⟩

/-- Witness for C6 at a concrete out-of-table string. -/
theorem hack_C6_witness :
    Code.dest (some "ELMO") = .error ("Invalid dest: " ++ "ELMO") :=
  hack_C6_tables.2.1 "ELMO" (by decide)

/-- Claim C7: every predefined name is substituted at classification time by
its fixed decimal address string (the classifier takes no symbol table, so
the substitution cannot depend on table state), and the assembled word for
the corresponding Address-Load line is the 16-bit binary of that address. -/
theorem hack_C7_predefined :
    (Parser.symbol ["@R0"] 0 = .ok (some "0") ∧
       runAssembler "@R0" = some "0000000000000000\n") ∧
    (Parser.symbol ["@R1"] 0 = .ok (some "1") ∧
       runAssembler "@R1" = some "0000000000000001\n") ∧
    (Parser.symbol ["@R2"] 0 = .ok (some "2") ∧
       runAssembler "@R2" = some "0000000000000010\n") ∧
    (Parser.symbol ["@R3"] 0 = .ok (some "3") ∧
       runAssembler "@R3" = some "0000000000000011\n") ∧
    (Parser.symbol ["@R4"] 0 = .ok (some "4") ∧
       runAssembler "@R4" = some "0000000000000100\n") ∧
    (Parser.symbol ["@R5"] 0 = .ok (some "5") ∧
       runAssembler "@R5" = some "0000000000000101\n") ∧
    (Parser.symbol ["@R6"] 0 = .ok (some "6") ∧
       runAssembler "@R6" = some "0000000000000110\n") ∧
    (Parser.symbol ["@R7"] 0 = .ok (some "7") ∧
       runAssembler "@R7" = some "0000000000000111\n") ∧
    (Parser.symbol ["@R8"] 0 = .ok (some "8") ∧
       runAssembler "@R8" = some "0000000000001000\n") ∧
    (Parser.symbol ["@R9"] 0 = .ok (some "9") ∧
       runAssembler "@R9" = some "0000000000001001\n") ∧
    (Parser.symbol ["@R10"] 0 = .ok (some "10") ∧
       runAssembler "@R10" = some "0000000000001010\n") ∧
    (Parser.symbol ["@R11"] 0 = .ok (some "11") ∧
       runAssembler "@R11" = some "0000000000001011\n") ∧
    (Parser.symbol ["@R12"] 0 = .ok (some "12") ∧
       runAssembler "@R12" = some "0000000000001100\n") ∧
    (Parser.symbol ["@R13"] 0 = .ok (some "13") ∧
       runAssembler "@R13" = some "0000000000001101\n") ∧
    (Parser.symbol ["@R14"] 0 = .ok (some "14") ∧
       runAssembler "@R14" = some "0000000000001110\n") ∧
    (Parser.symbol ["@R15"] 0 = .ok (some "15") ∧
       runAssembler "@R15" = some "0000000000001111\n") ∧
    (Parser.symbol ["@SCREEN"] 0 = .ok (some "16384") ∧
       runAssembler "@SCREEN" = some "0100000000000000\n") ∧
    (Parser.symbol ["@KBD"] 0 = .ok (some "24576") ∧
       runAssembler "@KBD" = some "0110000000000000\n") ∧
    (Parser.symbol ["@SP"] 0 = .ok (some "0") ∧
       runAssembler "@SP" = some "0000000000000000\n") ∧
    (Parser.symbol ["@LCL"] 0 = .ok (some "1") ∧
       runAssembler "@LCL" = some "0000000000000001\n") ∧
    (Parser.symbol ["@ARG"] 0 = .ok (some "2") ∧
       runAssembler "@ARG" = some "0000000000000010\n") ∧
    (Parser.symbol ["@THIS"] 0 = .ok (some "3") ∧
       runAssembler "@THIS" = some "0000000000000011\n") ∧
    (Parser.symbol ["@THAT"] 0 = .ok (some "4") ∧
       runAssembler "@THAT" = some "0000000000000100\n") := by
  repeat first | apply And.intro | decide

/-- Claim C9 (code evidence): a wrong-width word is not fatal — add_bytecode
refuses it, but run discards the Result, silently drops the word, and
completes successfully with empty output. -/
theorem hack_C9_code_behavior :
    runAssembler "@70000" = some "" ∧
    (toBin16 70000).length = 17 ∧
    addBytecode "" (toBin16 70000) = .error "Wrong size, should be 16 chars!" := by
  decide

/-- Claim C10: with the cursor at or past the end of the line sequence,
instruction_type reports no instruction, while symbol, dest, comp and jump
index the line list before inspecting the instruction kind and therefore
panic with an out-of-bounds error. -/
theorem hack_C10_oob (lines : List String) (cur : Nat) (h : lines.length ≤ cur) :
    Parser.instructionType lines cur = none ∧
    Parser.symbol lines cur = .error "index out of bounds" ∧
    Parser.dest lines cur = .error "index out of bounds" ∧
    Parser.comp lines cur = .error "index out of bounds" ∧
    Parser.jump lines cur = .error "index out of bounds" := by
  have h2 : ¬ cur < lines.length := by omega
  exact ⟨by simp [Parser.instructionType, h2], by simp [Parser.symbol, h2],
         by simp [Parser.dest, h2], by simp [Parser.comp, h2],
         by simp [Parser.jump, h2]⟩

/-- Witness for C10 on the empty parser state. -/
theorem hack_C10_witness :
    Parser.instructionType [] 0 = none ∧
    Parser.symbol [] 0 = .error "index out of bounds" ∧
    Parser.dest [] 0 = .error "index out of bounds" ∧
    Parser.comp [] 0 = .error "index out of bounds" ∧
    Parser.jump [] 0 = .error "index out of bounds" :=
  hack_C10_oob [] 0 (by decide)

/- Helper lemmas for the pass-1 analysis. -/

theorem get_append_mid (pre : List String) (l : String) (ls : List String)
    (h : pre.length < (pre ++ l :: ls).length) :
    (pre ++ l :: ls).get ⟨pre.length, h⟩ = l := by
  induction pre with
  | nil => rfl
  | cons a pre ih => exact ih (by simp)

theorem eraseIdx_append_mid (pre : List String) (l : String) (ls : List String) :
    (pre ++ l :: ls).eraseIdx pre.length = pre ++ ls := by
  induction pre with
  | nil => rfl
  | cons a pre ih => simpa using ih

theorem starts_at_not_paren (l : String) (h : startsWithChar l '@' = true) :
    startsWithChar l '(' = false := by
  obtain ⟨cs⟩ := l
  cases cs with
  | nil => simp [startsWithChar, String.toList] at h
  | cons x xs =>
    simp [startsWithChar, String.toList] at h ⊢
    subst h
    decide

theorem classify_eq_L_iff (l : String) : classifyLine l = .L ↔ isLabelLine l = true := by
  unfold classifyLine isLabelLine
  by_cases h1 : startsWithChar l '@'
  · simp [h1, starts_at_not_paren l h1]
  · simp only [h1, if_false, Bool.false_eq_true]
    cases h2 : (startsWithChar l '(' && endsWithChar l ')') <;> simp [h2]

theorem instrType_mid (pre : List String) (l : String) (ls : List String) :
    Parser.instructionType (pre ++ l :: ls) pre.length = some (classifyLine l) := by
  have h : pre.length < (pre ++ l :: ls).length := by simp
  unfold Parser.instructionType
  rw [dif_pos h, get_append_mid]

theorem symbol_mid_label (pre : List String) (l : String) (ls : List String)
    (hl : isLabelLine l = true) :
    Parser.symbol (pre ++ l :: ls) pre.length = .ok (some (trimParens l)) := by
  have h : pre.length < (pre ++ l :: ls).length := by simp
  have hcl : classifyLine l = .L := (classify_eq_L_iff l).2 hl
  unfold Parser.symbol
  rw [dif_pos h, instrType_mid, hcl, get_append_mid]

theorem bool_not_true {b : Bool} (h : ¬ b = true) : b = false := by
  cases b
  · rfl
  · exact absurd rfl h

theorem hasMore_true (lines : List String) (cur : Nat) (h : cur + 1 < lines.length) :
    hasMoreLines lines cur = true := by
  simp only [hasMoreLines, decide_eq_true_eq]
  omega

theorem hasMore_false (lines : List String) (cur : Nat) (h : lines.length ≤ cur + 1) :
    hasMoreLines lines cur = false := by
  simp only [hasMoreLines, decide_eq_false_iff_not]
  omega

/-- The pass-1 loop, started with the cursor at the boundary between an
already-scanned prefix and a remaining suffix, strips exactly the label lines
of the suffix and folds their addresses into the table. -/
theorem pass1_go (rest : List String) : ∀ (pre : List String) (t : SymTable) (fuel : Nat),
    rest.length + 1 ≤ fuel →
    pass1Fuel fuel (pre ++ rest) pre.length t =
      some (pre ++ rest.filter (fun l => !isLabelLine l), labelFold rest pre.length t) := by
  induction rest with
  | nil =>
    intro pre t fuel hf
    obtain ⟨f, rfl⟩ : ∃ f, fuel = f + 1 := ⟨fuel - 1, by omega⟩
    have h1 : Parser.instructionType pre pre.length = none := by
      unfold Parser.instructionType
      rw [dif_neg (by omega)]
    have h2 : hasMoreLines pre pre.length = false :=
      hasMore_false _ _ (by omega)
    simp [pass1Fuel, h1, h2, labelFold]
  | cons l ls ih =>
    intro pre t fuel hf
    obtain ⟨f, rfl⟩ : ∃ f, fuel = f + 1 := ⟨fuel - 1, by omega⟩
    by_cases hl : isLabelLine l = true
    · have hcl : classifyLine l = .L := (classify_eq_L_iff l).2 hl
      have hsym := symbol_mid_label pre l ls hl
      cases ls with
      | nil =>
        have hm : hasMoreLines (pre ++ [l]) pre.length = false :=
          hasMore_false _ _ (by simp)
        simp [pass1Fuel, instrType_mid, hcl, hsym, hm, eraseIdx_append_mid,
              List.filter_cons, hl, labelFold]
      | cons x xs =>
        have hm : hasMoreLines (pre ++ l :: x :: xs) pre.length = true :=
          hasMore_true _ _ (by simp only [List.length_append, List.length_cons]; omega)
        rw [show pass1Fuel (f + 1) (pre ++ l :: x :: xs) pre.length t
              = pass1Fuel f (pre ++ x :: xs) pre.length
                  (addEntry t (trimParens l) (Int.ofNat pre.length)) from by
          simp [pass1Fuel, instrType_mid, hcl, hsym, hm, eraseIdx_append_mid]]
        rw [ih pre (addEntry t (trimParens l) (Int.ofNat pre.length)) f (by
          simp only [List.length_cons] at hf ⊢
          omega)]
        simp [List.filter_cons, hl, labelFold]
    · have hlf : isLabelLine l = false := bool_not_true hl
      have hstep : pass1Fuel (f + 1) (pre ++ l :: ls) pre.length t =
          if hasMoreLines (pre ++ l :: ls) pre.length then
            pass1Fuel f (pre ++ l :: ls) (pre.length + 1) t
          else some (pre ++ l :: ls, t) := by
        cases hc2 : classifyLine l with
        | A => simp [pass1Fuel, instrType_mid, hc2]
        | C => simp [pass1Fuel, instrType_mid, hc2]
        | L =>
          rw [(classify_eq_L_iff l).1 hc2] at hlf
          exact absurd hlf (by simp)
      cases ls with
      | nil =>
        have hm : hasMoreLines (pre ++ [l]) pre.length = false :=
          hasMore_false _ _ (by simp)
        rw [hstep, hm]
        simp [List.filter_cons, hlf, labelFold]
      | cons x xs =>
        have hm : hasMoreLines (pre ++ l :: x :: xs) pre.length = true :=
          hasMore_true _ _ (by simp only [List.length_append, List.length_cons]; omega)
        rw [hstep, hm]
        have harr : pre ++ l :: x :: xs = (pre ++ [l]) ++ x :: xs := by simp
        have hpl : pre.length + 1 = (pre ++ [l]).length := by simp
        rw [if_pos rfl]
        rw [harr, hpl, ih (pre ++ [l]) t f (by
          simp only [List.length_cons] at hf ⊢
          omega)]
        simp [List.filter_cons, hlf, labelFold]

/-- Names that are not among the labels of a line list are untouched by the
label fold. -/
theorem labelFold_notmem (ls : List String) : ∀ (k : Nat) (t : SymTable) (name : String),
    (∀ l ∈ ls, isLabelLine l = true → trimParens l ≠ name) →
    getAddress (labelFold ls k t) name = getAddress t name := by
  induction ls with
  | nil => intro k t name _; rfl
  | cons l ls ih =>
    intro k t name h
    by_cases hl : isLabelLine l = true
    · rw [show labelFold (l :: ls) k t
          = labelFold ls k (addEntry t (trimParens l) (Int.ofNat k)) from by
        simp [labelFold, hl]]
      rw [ih _ _ _ (fun x hx hlx => h x (List.mem_cons_of_mem _ hx) hlx)]
      exact getAddr_add_ne _ _ _ _ (h l (List.mem_cons_self _ _) hl)
    · have hlf : isLabelLine l = false := bool_not_true hl
      rw [show labelFold (l :: ls) k t = labelFold ls (k + 1) t from by
        simp [labelFold, hlf]]
      exact ih _ _ _ (fun x hx hlx => h x (List.mem_cons_of_mem _ hx) hlx)

/-- Looking up the symbol of a label line that has no later label with the
same symbol yields the number of non-label lines before it, offset by the
fold's starting counter. -/
theorem labelFold_lookup (ls : List String) : ∀ (k : Nat) (t : SymTable) (p : Nat),
    p < ls.length → isLabelLine (ls.getD p "") = true →
    (∀ x ∈ ls.drop (p + 1), isLabelLine x = true →
        trimParens x ≠ trimParens (ls.getD p "")) →
    getAddress (labelFold ls k t) (trimParens (ls.getD p "")) =
      some (Int.ofNat (k + ((ls.take p).filter (fun l => !isLabelLine l)).length)) := by
  induction ls with
  | nil =>
    intro k t p hp _ _
    exact absurd hp (by simp)
  | cons l ls ih =>
    intro k t p hp hl hlast
    cases p with
    | zero =>
      rw [List.getD_cons_zero] at hl hlast ⊢
      rw [show labelFold (l :: ls) k t
          = labelFold ls k (addEntry t (trimParens l) (Int.ofNat k)) from by
        simp [labelFold, hl]]
      rw [labelFold_notmem ls k _ _ (by
        intro x hx hlx
        exact hlast x (by simpa using hx) hlx)]
      rw [getAddr_add_self]
      simp
    | succ p =>
      rw [List.getD_cons_succ] at hl hlast ⊢
      have hp2 : p < ls.length := by
        simpa using hp
      have hlast2 : ∀ x ∈ ls.drop (p + 1), isLabelLine x = true →
          trimParens x ≠ trimParens (ls.getD p "") := by
        intro x hx hlx
        exact hlast x (by simpa using hx) hlx
      by_cases hll : isLabelLine l = true
      · rw [show labelFold (l :: ls) k t
            = labelFold ls k (addEntry t (trimParens l) (Int.ofNat k)) from by
          simp [labelFold, hll]]
        rw [ih k _ p hp2 hl hlast2]
        simp [List.take_succ_cons, List.filter_cons, hll]
      · have hlf : isLabelLine l = false := bool_not_true hll
        rw [show labelFold (l :: ls) k t = labelFold ls (k + 1) t from by
          simp [labelFold, hlf]]
        rw [ih (k + 1) t p hp2 hl hlast2]
        have harith : k + 1 + ((ls.take p).filter (fun l => !isLabelLine l)).length
            = k + (((l :: ls.take p).filter (fun l => !isLabelLine l)).length) := by
          simp [List.filter_cons, hlf]
          omega
        rw [List.take_succ_cons, List.filter_cons]
        simp only [hlf, Bool.not_false, if_pos]
        simp only [List.length_cons]
        congr 1
        congr 1
        omega

/-- Claim C5: pass 1 removes every Label-Definition line without advancing
the cursor past the removal point, leaving exactly the non-label lines in
order, and enters every label symbol at the index the following instruction
has in the stripped sequence (the fold labelFold records each label at the
number of non-label lines before it); for a label symbol with no later
duplicate, looking it up yields exactly that index. -/
theorem hack_C5_pass1 (lines : List String) :
    pass1 lines 0 SymbolTable.new =
      some (lines.filter (fun l => !isLabelLine l), labelFold lines 0 SymbolTable.new) ∧
    (∀ l ∈ lines.filter (fun l => !isLabelLine l), isLabelLine l = false) ∧
    (∀ p, p < lines.length → isLabelLine (lines.getD p "") = true →
      (∀ x ∈ lines.drop (p + 1), isLabelLine x = true →
          trimParens x ≠ trimParens (lines.getD p "")) →
      getAddress (labelFold lines 0 SymbolTable.new) (trimParens (lines.getD p "")) =
        some (Int.ofNat (((lines.take p).filter (fun l => !isLabelLine l)).length))) := by
  refine ⟨?_, ?_, ?_⟩
  · have h := pass1_go lines [] SymbolTable.new (lines.length + 1) (by omega)
    simpa [pass1] using h
  · intro l hl
    have := List.of_mem_filter hl
    simpa using this
  · intro p hp hl hlast
    have h := labelFold_lookup lines 0 SymbolTable.new p hp hl hlast
    simpa using h

/-- Witness for C5 on a concrete three-line program with one label. -/
theorem hack_C5_witness :
    pass1 ["@1", "(LOOP)", "D=A"] 0 SymbolTable.new =
      some (["@1", "D=A"], [("LOOP", 1)]) ∧
    getAddress (labelFold ["@1", "(LOOP)", "D=A"] 0 SymbolTable.new)
        (trimParens (["@1", "(LOOP)", "D=A"].getD 1 "")) = some (Int.ofNat 1) := by
  have h := hack_C5_pass1 ["@1", "(LOOP)", "D=A"]
  constructor
  · rw [h.1]
    decide
  · have h2 := h.2.2 1 (by decide) (by decide) (by decide)
    rw [h2]
    decide

/- Helper lemmas for the line-normalizer analysis. -/

theorem findMarker_cons (c : Char) (rest : List Char) :
    findMarker (c :: rest) =
      if isMarkerAt (c :: rest) then some 0 else (findMarker rest).map (· + 1) := rfl

theorem findMarker_take (cs : List Char) : ∀ i, findMarker cs = some i →
    findMarker (cs.take i) = none := by
  induction cs with
  | nil =>
    intro i h
    simp [findMarker] at h
  | cons c rest ih =>
    intro i h
    rw [findMarker_cons] at h
    by_cases hc : isMarkerAt (c :: rest) = true
    · rw [if_pos hc] at h
      have h0 : i = 0 := by
        cases h
        rfl
      subst h0
      rfl
    · rw [if_neg hc] at h
      obtain ⟨j, hj, rfl⟩ : ∃ j, findMarker rest = some j ∧ i = j + 1 := by
        cases hfm : findMarker rest with
        | none =>
          rw [hfm] at h
          simp at h
        | some j =>
          rw [hfm] at h
          simp at h
          exact ⟨j, rfl, h.symm⟩
      rw [List.take_succ_cons, findMarker_cons]
      have hc2 : isMarkerAt (c :: rest.take j) = false := by
        cases rest with
        | nil =>
          cases j <;> rfl
        | cons r rest2 =>
          cases j with
          | zero => rfl
          | succ j2 =>
            rw [List.take_succ_cons]
            exact bool_not_true hc
      rw [hc2, if_neg (by simp), ih j hj]
      rfl

theorem findMarker_app_some (u : List Char) : ∀ (v : List Char) (j : Nat),
    findMarker u = some j → findMarker (u ++ v) = some j := by
  induction u with
  | nil =>
    intro v j h
    simp [findMarker] at h
  | cons c u2 ih =>
    intro v j h
    rw [findMarker_cons] at h
    by_cases hc : isMarkerAt (c :: u2) = true
    · rw [if_pos hc] at h
      have hmk : isMarkerAt (c :: (u2 ++ v)) = true := by
        cases u2 with
        | nil => simp [isMarkerAt] at hc
        | cons r u3 => exact hc
      rw [show (c :: u2) ++ v = c :: (u2 ++ v) from rfl, findMarker_cons, if_pos hmk]
      exact h
    · rw [if_neg hc] at h
      obtain ⟨j2, hj2, rfl⟩ : ∃ j2, findMarker u2 = some j2 ∧ j = j2 + 1 := by
        cases hfm : findMarker u2 with
        | none =>
          rw [hfm] at h
          simp at h
        | some j2 =>
          rw [hfm] at h
          simp at h
          exact ⟨j2, rfl, h.symm⟩
      have hne : u2 ≠ [] := by
        intro hnil
        rw [hnil] at hj2
        simp [findMarker] at hj2
      have hmk : isMarkerAt (c :: (u2 ++ v)) = false := by
        cases u2 with
        | nil => exact absurd rfl hne
        | cons r u3 => exact bool_not_true hc
      rw [show (c :: u2) ++ v = c :: (u2 ++ v) from rfl, findMarker_cons, hmk,
        if_neg (by simp), ih v j2 hj2]
      rfl

theorem findMarker_app_left (u v : List Char) (h : findMarker (u ++ v) = none) :
    findMarker u = none := by
  cases hfm : findMarker u with
  | none => rfl
  | some j =>
    rw [findMarker_app_some u v j hfm] at h
    exact Option.noConfusion h

theorem findMarker_app_right (u : List Char) : ∀ (v : List Char),
    findMarker (u ++ v) = none → findMarker v = none := by
  induction u with
  | nil =>
    intro v h
    exact h
  | cons c u2 ih =>
    intro v h
    rw [show (c :: u2) ++ v = c :: (u2 ++ v) from rfl, findMarker_cons] at h
    by_cases hc : isMarkerAt (c :: (u2 ++ v)) = true
    · rw [if_pos hc] at h
      exact Option.noConfusion h
    · rw [if_neg hc] at h
      apply ih
      cases hfm : findMarker (u2 ++ v) with
      | none => rfl
      | some j =>
        rw [hfm] at h
        simp at h

theorem findMarker_cut (cs : List Char) : findMarker (cutComment cs) = none := by
  cases h : findMarker cs with
  | none =>
    rw [show cutComment cs = cs from by simp [cutComment, h]]
    exact h
  | some i =>
    rw [show cutComment cs = cs.take i from by simp [cutComment, h]]
    exact findMarker_take cs i h

theorem findMarker_trim (cs : List Char) (h : findMarker cs = none) :
    findMarker (trimChars cs) = none := by
  have h1 : findMarker (cs.dropWhile Char.isWhitespace) = none := by
    apply findMarker_app_right (cs.takeWhile Char.isWhitespace)
    rw [List.takeWhile_append_dropWhile]
    exact h
  have hdecomp : cs.dropWhile Char.isWhitespace =
      ((cs.dropWhile Char.isWhitespace).reverse.dropWhile Char.isWhitespace).reverse ++
        ((cs.dropWhile Char.isWhitespace).reverse.takeWhile Char.isWhitespace).reverse := by
    conv_lhs => rw [← List.reverse_reverse (cs.dropWhile Char.isWhitespace),
      ← List.takeWhile_append_dropWhile (p := Char.isWhitespace)
        (l := (cs.dropWhile Char.isWhitespace).reverse)]
    rw [List.reverse_append]
  rw [hdecomp] at h1
  exact findMarker_app_left _ _ h1

theorem dropWhile_head_not {p : Char → Bool} (l : List Char) :
    ∀ c, (List.dropWhile p l).head? = some c → p c = false := by
  induction l with
  | nil =>
    intro c h
    simp [List.dropWhile] at h
  | cons x xs ih =>
    intro c h
    by_cases px : p x = true
    · rw [List.dropWhile_cons, if_pos px] at h
      exact ih c h
    · rw [List.dropWhile_cons, if_neg px] at h
      have hx : x = c := by
        cases h
        rfl
      subst hx
      exact bool_not_true px

theorem trim_head_not_ws (cs : List Char) :
    ∀ c, (trimChars cs).head? = some c → c.isWhitespace = false := by
  intro c h
  have h2 : ((cs.dropWhile Char.isWhitespace).reverse.dropWhile
      Char.isWhitespace).getLast? = some c := by
    rw [← List.head?_reverse]
    exact h
  have hne : (cs.dropWhile Char.isWhitespace).reverse.dropWhile
      Char.isWhitespace ≠ [] := by
    intro hnil
    rw [hnil] at h2
    simp at h2
  have h3 : ((cs.dropWhile Char.isWhitespace).reverse).getLast? = some c := by
    conv_lhs => rw [← List.takeWhile_append_dropWhile Char.isWhitespace
      (cs.dropWhile Char.isWhitespace).reverse]
    rw [List.getLast?_append_of_ne_nil _ hne]
    exact h2
  have h4 : (cs.dropWhile Char.isWhitespace).head? = some c := by
    rw [← List.getLast?_reverse]
    exact h3
  exact dropWhile_head_not cs c h4

theorem trim_last_not_ws (cs : List Char) :
    ∀ c, (trimChars cs).getLast? = some c → c.isWhitespace = false := by
  intro c h
  have h2 : ((cs.dropWhile Char.isWhitespace).reverse.dropWhile
      Char.isWhitespace).head? = some c := by
    rw [← List.getLast?_reverse]
    exact h
  exact dropWhile_head_not _ c h2

/-- Claim C8: the Line Normalizer is a pure function producing, in input
order, the per-line comment-cut and trimmed remainders with empty results
dropped; every surviving line is non-empty, contains no comment marker, and
neither starts nor ends with whitespace. -/
theorem hack_C8_normalizer (contents : String) :
    Parser.create contents =
      ((rustLines contents).map
          (fun l => String.mk (trimChars (cutComment l.toList)))).filter
        (fun l => !l.isEmpty) ∧
    (∀ l ∈ Parser.create contents,
      l.isEmpty = false ∧ hasMarker l.toList = false ∧
      (∀ c, l.toList.head? = some c → c.isWhitespace = false) ∧
      (∀ c, l.toList.getLast? = some c → c.isWhitespace = false)) := by
  constructor
  · unfold Parser.create
    rw [List.map_map]
    rfl
  · intro l hl
    unfold Parser.create at hl
    rw [List.mem_filter] at hl
    obtain ⟨hmem, hne⟩ := hl
    rw [List.mem_map] at hmem
    obtain ⟨l1, hl1, rfl⟩ := hmem
    rw [List.mem_map] at hl1
    obtain ⟨l0, _, rfl⟩ := hl1
    refine ⟨by simpa using hne, ?_, ?_, ?_⟩
    · show hasMarker (trimChars (cutComment l0.toList)) = false
      simp [hasMarker, findMarker_trim _ (findMarker_cut _)]
    · intro c hc
      exact trim_head_not_ws (cutComment l0.toList) c hc
    · intro c hc
      exact trim_last_not_ws (cutComment l0.toList) c hc

/-- Witness for C8: the theorem applied to a concrete source with a comment,
a blank line, and padded whitespace, at the surviving line produced from the
commented first line. -/
theorem hack_C8_witness :
    ("@2" : String).isEmpty = false ∧ hasMarker ("@2" : String).toList = false ∧
    ('@' : Char).isWhitespace = false ∧ ('2' : Char).isWhitespace = false := by
  have h := (hack_C8_normalizer "@2 // x\n\n  D=A  ").2 "@2" (by decide)
  exact ⟨h.1, h.2.1, h.2.2.1 '@' (by decide), h.2.2.2 '2' (by decide)⟩
